import Mathlib

/-!
Shallow embedding of `futile.py`: a base-10 floating value type
(`DecimalFloat`), a standardised E12 resistor type (`Resistor`) and the
greedy approximation engine (`approximateResistor`).

Modelling conventions:
* Python floats are modelled as exact rationals (`ℚ`); `int(math.log10 v)`
  (truncation toward zero of the base-10 logarithm) is modelled exactly on
  `ℚ` by `truncLog10`.
* Both `ValueError`s the program can raise are modelled by `PyErr`; the
  `except ValueError` handler in `approximateResistor` catches either.
* Fallible constructors return `Except PyErr _`.
* The `while True` loop is driven by explicit fuel; the termination theorem
  shows a fixed fuel is never exhausted on representable targets.
-/

/-- Errors: both constructors model a Python `ValueError`.  `domainError` is
`math.log10`'s "math domain error" for a non-positive argument
(`DecimalFloat.__init__`, futile.py line 19); `rangeError` is
"Resistors must be between 10R and 820M" (`Resistor.__init__`, line 118). -/
inductive PyErr where
  | domainError
  | rangeError
deriving DecidableEq

/-- Class `DecimalFloat` (futile.py lines 5-39): a mantissa/exponent pair in
base 10. -/
structure DecimalFloat where
  mantissa : ℚ
  exponent : ℤ
deriving DecidableEq

/-- Model of `int(math.log10 v)` for `v > 0`: truncation toward zero of
`log10 v`, which is the floor `Int.log` for `v ≥ 1` and the ceiling
`Int.clog` for `v < 1`. -/
def truncLog10 (v : ℚ) : ℤ := if 1 ≤ v then Int.log 10 v else Int.clog 10 v

/-- Constructor `DecimalFloat.__init__` (lines 14-22): set
`exponent = int(log10 param)`, decrement it when `10 ** exponent > param`,
then `mantissa = param / 10 ** exponent`.  `math.log10` raises `ValueError`
on a non-positive argument. -/
def DecimalFloat.make (param : ℚ) : Except PyErr DecimalFloat :=
  if param ≤ 0 then .error .domainError
  else
    let e0 : ℤ := truncLog10 param
    let e : ℤ := if (10 : ℚ) ^ e0 > param then e0 - 1 else e0
    .ok ⟨param / (10 : ℚ) ^ e, e⟩

/-- Conversion `DecimalFloat.__float__` (lines 24-28): `mantissa * 10 ** exponent`. -/
def DecimalFloat.toRat (d : DecimalFloat) : ℚ := d.mantissa * (10 : ℚ) ^ d.exponent

/-- Class `Resistor` (lines 89-179): a standardised resistor wrapping its
`_value : DecimalFloat`. -/
structure Resistor where
  value : DecimalFloat
deriving DecidableEq

/-- Static attribute `Resistor.mantissas` (lines 101-104): the E12 steps. -/
def Resistor.mantissas : List ℚ :=
  [1.0, 1.2, 1.5, 1.8, 2.2, 2.7, 3.3, 3.9, 4.7, 5.6, 6.8, 8.2]

/-- The `for mantissa in Resistor.mantissas` search of `Resistor.__init__`
(lines 119-123): the first list element that is `≥ x`. -/
def findGE (x : ℚ) : List ℚ → Option ℚ
  | [] => none
  | m :: rest => if x ≤ m then some m else findGE x rest

/-- Constructor `Resistor.__init__` (lines 107-123): build the
`DecimalFloat`, roll over past the largest mantissa `8.2`
(`Resistor.mantissas[-1]`) to mantissa `1.0` (`Resistor.mantissas[0]`) with
the exponent incremented, raise `ValueError` when the exponent is outside
`range(1, 9)`, then snap the mantissa up to the first standard step.
The final `none` branch is unreachable (at that point the mantissa is
`≤ 8.2`, which is in the list); in Python the constructor would fall
through with `_value` unset there. -/
def Resistor.make (param : ℚ) : Except PyErr Resistor :=
  match DecimalFloat.make param with
  | .error e => .error e
  | .ok v0 =>
    let v1 : DecimalFloat :=
      if v0.mantissa > 8.2 then ⟨1.0, v0.exponent + 1⟩ else v0
    if v1.exponent < 1 ∨ 8 < v1.exponent then .error .rangeError
    else
      match findGE v1.mantissa Resistor.mantissas with
      | some m => .ok ⟨⟨m, v1.exponent⟩⟩
      | none => .error .rangeError

/-- Conversion `Resistor.__float__` (lines 125-129). -/
def Resistor.toRat (r : Resistor) : ℚ := r.value.toRat

/-- The values flowing through the engine's running `currentValue`
(lines 192-194): the Python integer literal `0` seeding the fold, a
`Resistor`, or a `DecimalFloat`. -/
inductive PyNum where
  | int0
  | res (r : Resistor)
  | dec (d : DecimalFloat)
deriving DecidableEq

/-- Python `float(...)` applied to a fold value. -/
def PyNum.toRat : PyNum → ℚ
  | .int0 => 0
  | .res r => r.toRat
  | .dec d => d.toRat

/-- Operator `Resistor.__add__` (lines 151-157): parallel combination.
The guard `param == 0` is true exactly for the integer literal `0`
(neither `Resistor` nor `DecimalFloat` defines `__eq__`, so those operands
never compare equal to `0`). -/
def Resistor.addPar (self : Resistor) (param : PyNum) : Except PyErr PyNum :=
  match param with
  | .int0 => .ok (.res self)
  | p => (DecimalFloat.make (1 / (1 / self.toRat + 1 / p.toRat))).map .dec

/-- Operator `Resistor.__radd__` (lines 159-165), used for `0 + resistor`. -/
def Resistor.raddPar (self : Resistor) (param : PyNum) : Except PyErr PyNum :=
  match param with
  | .int0 => .ok (.res self)
  | p => (DecimalFloat.make (1 / (1 / p.toRat + 1 / self.toRat))).map .dec

/-- Operator `Resistor.__sub__` (lines 167-173) as the engine invokes it on
line 199: `Resistor.__sub__(value, currentValue)` is an unbound call whose
`self` is the plain float `value`, so `float(self)` is that number itself.
Equal operands yield the integer sentinel `0` (`.int0`); otherwise the
result is `DecimalFloat(1 / (1/self - 1/param))`, whose construction raises
`ValueError` when that quantity is not positive. -/
def Resistor.subFloatSelf (self : ℚ) (param : PyNum) : Except PyErr PyNum :=
  if self = param.toRat then .ok .int0
  else (DecimalFloat.make (1 / (1 / self - 1 / param.toRat))).map .dec

/-- Lines 192-194 of `approximateResistor`: `currentValue = 0;
for approxValue in output: currentValue = approxValue + currentValue`.
A `ValueError` raised inside the loop aborts it, modelled by `Except.bind`. -/
def foldCurrent (output : List Resistor) : Except PyErr PyNum :=
  output.foldl (fun currentValue r => currentValue.bind (Resistor.addPar r)) (.ok .int0)

/-- Total parallel conductance of a resistor list; the engine's fold
computes its reciprocal. -/
def condSum (l : List Resistor) : ℚ := (l.map fun r => (Resistor.toRat r)⁻¹).sum

/-- One iteration of the `while True` body of `approximateResistor`
(lines 191-203).  `.inl out` means the iteration ended the loop returning
`out`: either the tolerance test on line 196 succeeded, or a `ValueError`
was raised and the `except ValueError` handler on lines 201-203 returned
`output`.  `.inr out` means the loop continues with the grown list. -/
def loopStep (value tolerance : ℚ) (output : List Resistor) :
    List Resistor ⊕ List Resistor :=
  match foldCurrent output with
  | .error _ => .inl output
  | .ok currentValue =>
    if |currentValue.toRat - value| / value < tolerance then .inl output
    else
      match Resistor.subFloatSelf value currentValue with
      | .error _ => .inl output
      | .ok difference =>
        match Resistor.make difference.toRat with
        | .error _ => .inl output
        | .ok r => .inr (output ++ [r])

/-- The `while True` loop of `approximateResistor`, driven by fuel (the
Python loop has no counter; the termination theorem shows the fuel is
never exhausted for representable targets). -/
def loop : ℕ → ℚ → ℚ → List Resistor → Option (List Resistor)
  | 0, _, _, _ => none
  | fuel + 1, value, tolerance, output =>
    match loopStep value tolerance output with
    | .inl finished => some finished
    | .inr next => loop fuel value tolerance next

/-- Function `approximateResistor` (lines 181-203).  The initial
`Resistor(value)` on line 189 sits outside the `try` block, so a
`ValueError` it raises propagates to the caller.  The CLI default for
`tolerance` is `0.01`. -/
def approximateResistor (fuel : ℕ) (value tolerance : ℚ) :
    Except PyErr (Option (List Resistor)) :=
  match Resistor.make value with
  | .error e => .error e
  | .ok r => .ok (loop fuel value tolerance [r])

/-- Python `str()` of a float whose value is a decimal with at most one
fractional digit.  Every mantissa reaching `Resistor.__str__` is an E12
step times 1, 10 or 100, hence of this shape; Python renders the shortest
decimal representation, always keeping a decimal point. -/
def pyFloatRepr (q : ℚ) : String :=
  if (⌊q⌋ : ℚ) = q then toString ⌊q⌋ ++ ".0"
  else toString ⌊q⌋ ++ "." ++ toString (⌊q * 10⌋ - 10 * ⌊q⌋)

/-- Line 148: `output.replace('.', letter)`; the rendered mantissa contains
at most one dot, so a character map suffices. -/
def replaceDot (letter : Char) (s : String) : String :=
  String.mk (s.toList.map fun c => if c == '.' then letter else c)

/-- Line 149: `output.strip("0")` removes leading and trailing `'0'`
characters. -/
def stripZeros (s : String) : String :=
  String.mk (((s.toList.dropWhile fun c => c == '0').reverse.dropWhile
    fun c => c == '0').reverse)

/-- Method `Resistor.__str__` (lines 136-149).  For the exponents `[1, 8]`
of constructed resistors, Python's `int(exponent % 3)` and
`int(exponent / 3)` agree with `Int.emod`/`Int.ediv`, and the unit-letter
index `int(exponent / 3)` is 0, 1 or 2 (`['R', 'K', 'M'][...]` would raise
`IndexError` otherwise, so the `getD` default is unreachable for
constructed resistors). -/
def Resistor.str (r : Resistor) : String :=
  let mantissa : ℚ := r.value.mantissa * (10 : ℚ) ^ (r.value.exponent % 3).toNat
  let exponent : ℤ := r.value.exponent / 3
  stripZeros (replaceDot (['R', 'K', 'M'].getD exponent.toNat 'R')
    (pyFloatRepr mantissa))

/-! ### Characterisation of `DecimalFloat.make` -/

theorem zpow10_pos (e : ℤ) : (0 : ℚ) < (10 : ℚ) ^ e := by positivity

/-- The exponent computed by `DecimalFloat.make` brackets the input between
consecutive powers of ten. -/
theorem DecimalFloat.make_spec (v : ℚ) (hv : 0 < v) :
    ∃ e : ℤ, DecimalFloat.make v = .ok ⟨v / (10 : ℚ) ^ e, e⟩ ∧
      (10 : ℚ) ^ e ≤ v ∧ v < (10 : ℚ) ^ (e + 1) := by
  have hb : 1 < (10 : ℕ) := by norm_num
  have hcast : ((10 : ℕ) : ℚ) = (10 : ℚ) := by norm_num
  rw [DecimalFloat.make, if_neg (not_le.mpr hv)]
  by_cases h1 : (1 : ℚ) ≤ v
  · have he0 : truncLog10 v = Int.log 10 v := if_pos h1
    have hlow : (10 : ℚ) ^ Int.log 10 v ≤ v := by
      have h := Int.zpow_log_le_self (R := ℚ) hb hv
      rwa [hcast] at h
    have hup : v < (10 : ℚ) ^ (Int.log 10 v + 1) := by
      have h := Int.lt_zpow_succ_log_self (R := ℚ) hb v
      rwa [hcast] at h
    refine ⟨Int.log 10 v, ?_, hlow, hup⟩
    simp only [he0, gt_iff_lt, if_neg (not_lt.mpr hlow)]
  · have he0 : truncLog10 v = Int.clog 10 v := if_neg h1
    by_cases h2 : (10 : ℚ) ^ Int.clog 10 v > v
    · have hlow : (10 : ℚ) ^ (Int.clog 10 v - 1) ≤ v := by
        have h := Int.zpow_pred_clog_lt_self (R := ℚ) hb hv
        rw [hcast] at h
        exact le_of_lt h
      have hup : v < (10 : ℚ) ^ (Int.clog 10 v - 1 + 1) := by
        rwa [sub_add_cancel]
      refine ⟨Int.clog 10 v - 1, ?_, hlow, hup⟩
      simp only [he0, gt_iff_lt, if_pos h2]
    · have hlow : (10 : ℚ) ^ Int.clog 10 v ≤ v := not_lt.mp h2
      have hup : v < (10 : ℚ) ^ (Int.clog 10 v + 1) := by
        have h := Int.self_le_zpow_clog (R := ℚ) hb v
        rw [hcast] at h
        calc v ≤ (10 : ℚ) ^ Int.clog 10 v := h
        _ < (10 : ℚ) ^ (Int.clog 10 v + 1) :=
          zpow_lt_zpow_right₀ (by norm_num) (by omega)
      refine ⟨Int.clog 10 v, ?_, hlow, hup⟩
      simp only [he0, gt_iff_lt, if_neg h2]

/-- Uniqueness of the bracketing exponent. -/
theorem exp_unique {v : ℚ} {e f : ℤ} (he1 : (10 : ℚ) ^ e ≤ v)
    (he2 : v < (10 : ℚ) ^ (e + 1)) (hf1 : (10 : ℚ) ^ f ≤ v)
    (hf2 : v < (10 : ℚ) ^ (f + 1)) : e = f := by
  have h1 : (10 : ℚ) ^ e < (10 : ℚ) ^ (f + 1) := lt_of_le_of_lt he1 hf2
  have h2 : (10 : ℚ) ^ f < (10 : ℚ) ^ (e + 1) := lt_of_le_of_lt hf1 he2
  have h1' : e < f + 1 := (zpow_lt_zpow_iff_right₀ (by norm_num : (1:ℚ) < 10)).mp h1
  have h2' : f < e + 1 := (zpow_lt_zpow_iff_right₀ (by norm_num : (1:ℚ) < 10)).mp h2
  omega

/-- Concrete evaluator for `DecimalFloat.make`: supply the exponent and the
power-of-ten bracket. -/
theorem DecimalFloat.make_eval (v : ℚ) (e : ℤ) (h0 : 0 < v)
    (h1 : (10 : ℚ) ^ e ≤ v) (h2 : v < (10 : ℚ) ^ (e + 1)) :
    DecimalFloat.make v = .ok ⟨v / (10 : ℚ) ^ e, e⟩ := by
  obtain ⟨f, hmk, hf1, hf2⟩ := DecimalFloat.make_spec v h0
  rwa [exp_unique hf1 hf2 h1 h2] at hmk

theorem DecimalFloat.toRat_mk (v : ℚ) (e : ℤ) :
    DecimalFloat.toRat ⟨v / (10 : ℚ) ^ e, e⟩ = v := by
  simp only [DecimalFloat.toRat]
  exact div_mul_cancel₀ v (zpow10_pos e).ne'

/-- For positive input, `DecimalFloat.make` succeeds and represents the
input exactly. -/
theorem DecimalFloat.make_ok_toRat (v : ℚ) (hv : 0 < v) :
    ∃ d, DecimalFloat.make v = .ok d ∧ d.toRat = v := by
  obtain ⟨e, hmk, _, _⟩ := DecimalFloat.make_spec v hv
  exact ⟨_, hmk, DecimalFloat.toRat_mk v e⟩

/-! ### Characterisation of the E12 snap and of `Resistor.make` -/

theorem mantissas_eq :
    Resistor.mantissas =
      [1, 6/5, 3/2, 9/5, 11/5, 27/10, 33/10, 39/10, 47/10, 28/5, 34/5, 41/5] := by
  norm_num [Resistor.mantissas]


theorem findGE_cons_pos {x m : ℚ} (h : x ≤ m) (l : List ℚ) :
    findGE x (m :: l) = some m := by
  simp [findGE, h]

theorem findGE_cons_neg {x m : ℚ} (h : ¬x ≤ m) (l : List ℚ) :
    findGE x (m :: l) = findGE x l := by
  simp [findGE, h]

set_option maxHeartbeats 3200000 in
/-- Snapping a mantissa in `[1, 8.2]` up to the E12 table: the search finds
the least step `≥ x`, and that step is at most `5/4 · x` (the widest E12
gap is `1.2 → 1.5`). -/
theorem findGE_spec (x : ℚ) (hx1 : 1 ≤ x) (hx2 : x ≤ 41/5) :
    ∃ m, findGE x Resistor.mantissas = some m ∧ x ≤ m ∧ m ≤ 5/4 * x ∧
      m ∈ Resistor.mantissas ∧ ∀ y ∈ Resistor.mantissas, x ≤ y → m ≤ y := by
  have hmem : ∀ y : ℚ,
      y ∈ [1, 6/5, 3/2, 9/5, 11/5, 27/10, 33/10, 39/10, 47/10, 28/5, 34/5, 41/5] →
      y = 1 ∨ y = 6/5 ∨ y = 3/2 ∨ y = 9/5 ∨ y = 11/5 ∨ y = 27/10 ∨ y = 33/10 ∨
        y = 39/10 ∨ y = 47/10 ∨ y = 28/5 ∨ y = 34/5 ∨ y = 41/5 := by
    intro y hy
    simpa using hy
  rw [mantissas_eq]
  rcases le_or_lt x 1 with hc | h0
  · refine ⟨1, findGE_cons_pos hc _, hc, by linarith, by norm_num, ?_⟩
    intro y hy _
    rcases hmem y hy with rfl|rfl|rfl|rfl|rfl|rfl|rfl|rfl|rfl|rfl|rfl|rfl <;> linarith
  rcases le_or_lt x (6/5) with hc | h1
  · refine ⟨6/5, ?_, hc, by linarith, by norm_num, ?_⟩
    · rw [findGE_cons_neg (by linarith), findGE_cons_pos hc]
    · intro y hy hxy
      rcases hmem y hy with rfl|rfl|rfl|rfl|rfl|rfl|rfl|rfl|rfl|rfl|rfl|rfl <;> linarith
  rcases le_or_lt x (3/2) with hc | h2
  · refine ⟨3/2, ?_, hc, by linarith, by norm_num, ?_⟩
    · rw [findGE_cons_neg (by linarith), findGE_cons_neg (by linarith),
        findGE_cons_pos hc]
    · intro y hy hxy
      rcases hmem y hy with rfl|rfl|rfl|rfl|rfl|rfl|rfl|rfl|rfl|rfl|rfl|rfl <;> linarith
  rcases le_or_lt x (9/5) with hc | h3
  · refine ⟨9/5, ?_, hc, by linarith, by norm_num, ?_⟩
    · rw [findGE_cons_neg (by linarith), findGE_cons_neg (by linarith),
        findGE_cons_neg (by linarith), findGE_cons_pos hc]
    · intro y hy hxy
      rcases hmem y hy with rfl|rfl|rfl|rfl|rfl|rfl|rfl|rfl|rfl|rfl|rfl|rfl <;> linarith
  rcases le_or_lt x (11/5) with hc | h4
  · refine ⟨11/5, ?_, hc, by linarith, by norm_num, ?_⟩
    · rw [findGE_cons_neg (by linarith), findGE_cons_neg (by linarith),
        findGE_cons_neg (by linarith), findGE_cons_neg (by linarith),
        findGE_cons_pos hc]
    · intro y hy hxy
      rcases hmem y hy with rfl|rfl|rfl|rfl|rfl|rfl|rfl|rfl|rfl|rfl|rfl|rfl <;> linarith
  rcases le_or_lt x (27/10) with hc | h5
  · refine ⟨27/10, ?_, hc, by linarith, by norm_num, ?_⟩
    · rw [findGE_cons_neg (by linarith), findGE_cons_neg (by linarith),
        findGE_cons_neg (by linarith), findGE_cons_neg (by linarith),
        findGE_cons_neg (by linarith), findGE_cons_pos hc]
    · intro y hy hxy
      rcases hmem y hy with rfl|rfl|rfl|rfl|rfl|rfl|rfl|rfl|rfl|rfl|rfl|rfl <;> linarith
  rcases le_or_lt x (33/10) with hc | h6
  · refine ⟨33/10, ?_, hc, by linarith, by norm_num, ?_⟩
    · rw [findGE_cons_neg (by linarith), findGE_cons_neg (by linarith),
        findGE_cons_neg (by linarith), findGE_cons_neg (by linarith),
        findGE_cons_neg (by linarith), findGE_cons_neg (by linarith),
        findGE_cons_pos hc]
    · intro y hy hxy
      rcases hmem y hy with rfl|rfl|rfl|rfl|rfl|rfl|rfl|rfl|rfl|rfl|rfl|rfl <;> linarith
  rcases le_or_lt x (39/10) with hc | h7
  · refine ⟨39/10, ?_, hc, by linarith, by norm_num, ?_⟩
    · rw [findGE_cons_neg (by linarith), findGE_cons_neg (by linarith),
        findGE_cons_neg (by linarith), findGE_cons_neg (by linarith),
        findGE_cons_neg (by linarith), findGE_cons_neg (by linarith),
        findGE_cons_neg (by linarith), findGE_cons_pos hc]
    · intro y hy hxy
      rcases hmem y hy with rfl|rfl|rfl|rfl|rfl|rfl|rfl|rfl|rfl|rfl|rfl|rfl <;> linarith
  rcases le_or_lt x (47/10) with hc | h8
  · refine ⟨47/10, ?_, hc, by linarith, by norm_num, ?_⟩
    · rw [findGE_cons_neg (by linarith), findGE_cons_neg (by linarith),
        findGE_cons_neg (by linarith), findGE_cons_neg (by linarith),
        findGE_cons_neg (by linarith), findGE_cons_neg (by linarith),
        findGE_cons_neg (by linarith), findGE_cons_neg (by linarith),
        findGE_cons_pos hc]
    · intro y hy hxy
      rcases hmem y hy with rfl|rfl|rfl|rfl|rfl|rfl|rfl|rfl|rfl|rfl|rfl|rfl <;> linarith
  rcases le_or_lt x (28/5) with hc | h9
  · refine ⟨28/5, ?_, hc, by linarith, by norm_num, ?_⟩
    · rw [findGE_cons_neg (by linarith), findGE_cons_neg (by linarith),
        findGE_cons_neg (by linarith), findGE_cons_neg (by linarith),
        findGE_cons_neg (by linarith), findGE_cons_neg (by linarith),
        findGE_cons_neg (by linarith), findGE_cons_neg (by linarith),
        findGE_cons_neg (by linarith), findGE_cons_pos hc]
    · intro y hy hxy
      rcases hmem y hy with rfl|rfl|rfl|rfl|rfl|rfl|rfl|rfl|rfl|rfl|rfl|rfl <;> linarith
  rcases le_or_lt x (34/5) with hc | h10
  · refine ⟨34/5, ?_, hc, by linarith, by norm_num, ?_⟩
    · rw [findGE_cons_neg (by linarith), findGE_cons_neg (by linarith),
        findGE_cons_neg (by linarith), findGE_cons_neg (by linarith),
        findGE_cons_neg (by linarith), findGE_cons_neg (by linarith),
        findGE_cons_neg (by linarith), findGE_cons_neg (by linarith),
        findGE_cons_neg (by linarith), findGE_cons_neg (by linarith),
        findGE_cons_pos hc]
    · intro y hy hxy
      rcases hmem y hy with rfl|rfl|rfl|rfl|rfl|rfl|rfl|rfl|rfl|rfl|rfl|rfl <;> linarith
  · refine ⟨41/5, ?_, hx2, by linarith, by norm_num, ?_⟩
    · rw [findGE_cons_neg (by linarith), findGE_cons_neg (by linarith),
        findGE_cons_neg (by linarith), findGE_cons_neg (by linarith),
        findGE_cons_neg (by linarith), findGE_cons_neg (by linarith),
        findGE_cons_neg (by linarith), findGE_cons_neg (by linarith),
        findGE_cons_neg (by linarith), findGE_cons_neg (by linarith),
        findGE_cons_neg (by linarith), findGE_cons_pos hx2]
    · intro y hy hxy
      rcases hmem y hy with rfl|rfl|rfl|rfl|rfl|rfl|rfl|rfl|rfl|rfl|rfl|rfl <;> linarith

theorem one_le_mantissas : ∀ y ∈ Resistor.mantissas, (1 : ℚ) ≤ y := by
  intro y hy
  fin_cases hy <;> norm_num

theorem DecimalFloat.make_nonpos (v : ℚ) (h : v ≤ 0) :
    DecimalFloat.make v = .error .domainError := by
  rw [DecimalFloat.make, if_pos h]

/-- `Resistor(0)` hits `math.log10`'s domain error, which is a `ValueError`
just like the range error. -/
theorem Resistor.make_zero : Resistor.make 0 = .error .domainError := by
  simp [Resistor.make, DecimalFloat.make]

/-- Concrete evaluator for `Resistor.make`, no-rollover case. -/
theorem Resistor.make_eval_mk (x : ℚ) (e : ℤ) (m' : ℚ)
    (h0 : 0 < x) (h1 : (10 : ℚ) ^ e ≤ x) (h2 : x < (10 : ℚ) ^ (e + 1))
    (hroll : ¬x / (10 : ℚ) ^ e > 8.2) (he1 : 1 ≤ e) (he8 : e ≤ 8)
    (hfind : findGE (x / (10 : ℚ) ^ e) Resistor.mantissas = some m') :
    Resistor.make x = .ok ⟨⟨m', e⟩⟩ := by
  have hd := DecimalFloat.make_eval x e h0 h1 h2
  simp only [Resistor.make, hd, if_neg hroll,
    if_neg (show ¬(e < 1 ∨ 8 < e) by omega), hfind]

/-- Concrete evaluator for `Resistor.make`, rollover case. -/
theorem Resistor.make_eval_roll (x : ℚ) (e : ℤ)
    (h0 : 0 < x) (h1 : (10 : ℚ) ^ e ≤ x) (h2 : x < (10 : ℚ) ^ (e + 1))
    (hroll : x / (10 : ℚ) ^ e > 8.2) (he0 : 0 ≤ e) (he7 : e ≤ 7) :
    Resistor.make x = .ok ⟨⟨1, e + 1⟩⟩ := by
  have hd := DecimalFloat.make_eval x e h0 h1 h2
  have hfind : findGE (1.0 : ℚ) Resistor.mantissas = some 1 := by
    rw [mantissas_eq]
    exact findGE_cons_pos (by norm_num) _
  simp only [Resistor.make, hd, if_pos hroll,
    if_neg (show ¬(e + 1 < 1 ∨ 8 < e + 1) by omega), hfind]

/-- Inputs in `(8.2, 8.2e8]` construct successfully; the result is snapped
up (`x ≤ r`), by at most a factor `5/4`, its mantissa is an E12 step, its
exponent is in `[1, 8]`, and the mantissa is the least admissible step. -/
theorem Resistor.make_total_spec (x : ℚ) (hlo : (8.2 : ℚ) < x)
    (hhi : x ≤ (8.2e8 : ℚ)) :
    ∃ r : Resistor, Resistor.make x = .ok r ∧
      r.value.mantissa ∈ Resistor.mantissas ∧
      1 ≤ r.value.exponent ∧ r.value.exponent ≤ 8 ∧
      x ≤ r.toRat ∧ r.toRat ≤ 5/4 * x ∧
      ∀ y ∈ Resistor.mantissas, x ≤ y * (10 : ℚ) ^ r.value.exponent →
        r.value.mantissa ≤ y := by
  have hx0 : 0 < x := by linarith [show (0:ℚ) < 8.2 from by norm_num]
  obtain ⟨e, hd, hlow, hup⟩ := DecimalFloat.make_spec x hx0
  have hpe : (0 : ℚ) < (10 : ℚ) ^ e := zpow10_pos e
  have h10 : (10 : ℚ) ^ (e + 1) = (10 : ℚ) ^ e * 10 := zpow_add_one₀ (by norm_num) e
  have he8 : e ≤ 8 := by
    have hlt : (10 : ℚ) ^ e < (10 : ℚ) ^ (9 : ℤ) := by
      rw [show ((10:ℚ) ^ (9:ℤ)) = 1000000000 by norm_num]
      norm_num at hhi
      linarith
    have := (zpow_lt_zpow_iff_right₀ (by norm_num : (1:ℚ) < 10)).mp hlt
    omega
  have he0 : 0 ≤ e := by
    have hlt : (10 : ℚ) ^ (0 : ℤ) < (10 : ℚ) ^ (e + 1) := by
      rw [show ((10:ℚ) ^ (0:ℤ)) = 1 by norm_num]
      norm_num at hlo ⊢
      linarith
    have := (zpow_lt_zpow_iff_right₀ (by norm_num : (1:ℚ) < 10)).mp hlt
    omega
  by_cases hroll : x / (10 : ℚ) ^ e > 8.2
  · have hx82 : (8.2 : ℚ) * (10 : ℚ) ^ e < x := by
      rw [gt_iff_lt, lt_div_iff₀ hpe] at hroll
      exact hroll
    have he7 : e ≤ 7 := by
      by_contra h
      have he' : e = 8 := by omega
      rw [he', show ((10:ℚ) ^ (8:ℤ)) = 100000000 by norm_num] at hx82
      norm_num at hx82 hhi
      linarith
    refine ⟨⟨⟨1, e + 1⟩⟩, Resistor.make_eval_roll x e hx0 hlow hup hroll he0 he7,
      by simp [mantissas_eq], show (1:ℤ) ≤ e + 1 by omega,
      show e + 1 ≤ 8 by omega, ?_, ?_, ?_⟩
    · show x ≤ DecimalFloat.toRat ⟨1, e + 1⟩
      rw [DecimalFloat.toRat]
      simp only
      rw [one_mul, h10]
      linarith [hup, h10]
    · show DecimalFloat.toRat ⟨1, e + 1⟩ ≤ 5/4 * x
      rw [DecimalFloat.toRat]
      simp only
      rw [one_mul, h10]
      norm_num at hx82 ⊢
      linarith
    · intro y hy _
      exact one_le_mantissas y hy
  · have hm1 : 1 ≤ x / (10 : ℚ) ^ e := (one_le_div hpe).mpr hlow
    have hm82 : x / (10 : ℚ) ^ e ≤ 41/5 := by
      rw [show ((41:ℚ)/5) = 8.2 by norm_num]
      exact not_lt.mp hroll
    have he1 : 1 ≤ e := by
      by_contra h
      have he' : e = 0 := by omega
      rw [he', show ((10:ℚ) ^ (0:ℤ)) = 1 by norm_num, div_one] at hm82
      norm_num at hm82 hlo
      linarith
    obtain ⟨m', hfind, hge, h54, hmem', hmin⟩ := findGE_spec (x / (10:ℚ) ^ e) hm1 hm82
    refine ⟨⟨⟨m', e⟩⟩, Resistor.make_eval_mk x e m' hx0 hlow hup hroll he1 he8 hfind,
      hmem', he1, he8, ?_, ?_, ?_⟩
    · show x ≤ DecimalFloat.toRat ⟨m', e⟩
      rw [DecimalFloat.toRat]
      simp only
      rw [← div_le_iff₀ hpe]
      exact hge
    · show DecimalFloat.toRat ⟨m', e⟩ ≤ 5/4 * x
      rw [DecimalFloat.toRat]
      simp only
      have : m' * (10:ℚ) ^ e ≤ 5/4 * (x / (10:ℚ) ^ e) * (10:ℚ) ^ e := by
        exact mul_le_mul_of_nonneg_right h54 (le_of_lt hpe)
      calc m' * (10:ℚ) ^ e ≤ 5/4 * (x / (10:ℚ) ^ e) * (10:ℚ) ^ e := this
      _ = 5/4 * x := by
        field_simp
        ring
    · intro y hy hxy
      apply hmin y hy
      rw [div_le_iff₀ hpe]
      exact hxy

/-- Positive inputs at most `8.2` fail the exponent check with the range
error (for such inputs the final exponent is at most `0`). -/
theorem Resistor.make_err_low (x : ℚ) (h0 : 0 < x) (hle : x ≤ (8.2 : ℚ)) :
    Resistor.make x = .error .rangeError := by
  obtain ⟨e, hd, hlow, hup⟩ := DecimalFloat.make_spec x h0
  have hpe : (0 : ℚ) < (10 : ℚ) ^ e := zpow10_pos e
  have he0 : e ≤ 0 := by
    by_contra h
    have h1 : (10 : ℚ) ^ (1 : ℤ) ≤ (10 : ℚ) ^ e :=
      zpow_le_zpow_right₀ (by norm_num) (by omega)
    rw [show ((10:ℚ) ^ (1:ℤ)) = 10 by norm_num] at h1
    norm_num at hle
    linarith
  by_cases hroll : x / (10 : ℚ) ^ e > 8.2
  · have he1 : e ≤ -1 := by
      by_contra h
      have he' : e = 0 := by omega
      rw [he', show ((10:ℚ) ^ (0:ℤ)) = 1 by norm_num, div_one] at hroll
      norm_num at hroll hle
      linarith
    simp only [Resistor.make, hd, if_pos hroll,
      if_pos (show (e + 1 < 1 ∨ 8 < e + 1) by omega)]
  · simp only [Resistor.make, hd, if_neg hroll,
      if_pos (show (e < 1 ∨ 8 < e) by omega)]

/-- Inputs above `8.2e8` fail the exponent check with the range error
(the final exponent, after a possible rollover, is at least `9`). -/
theorem Resistor.make_err_high (x : ℚ) (hgt : (8.2e8 : ℚ) < x) :
    Resistor.make x = .error .rangeError := by
  have h0 : 0 < x := lt_trans (by norm_num) hgt
  obtain ⟨e, hd, hlow, hup⟩ := DecimalFloat.make_spec x h0
  have hpe : (0 : ℚ) < (10 : ℚ) ^ e := zpow10_pos e
  have he8 : 8 ≤ e := by
    by_contra h
    have h1 : (10 : ℚ) ^ (e + 1) ≤ (10 : ℚ) ^ (8 : ℤ) :=
      zpow_le_zpow_right₀ (by norm_num) (by omega)
    rw [show ((10:ℚ) ^ (8:ℤ)) = 100000000 by norm_num] at h1
    norm_num at hgt
    linarith
  by_cases hroll : x / (10 : ℚ) ^ e > 8.2
  · simp only [Resistor.make, hd, if_pos hroll,
      if_pos (show (e + 1 < 1 ∨ 8 < e + 1) by omega)]
  · have he9 : 9 ≤ e := by
      by_contra h
      have he' : e = 8 := by omega
      rw [he', show ((10:ℚ) ^ (8:ℤ)) = 100000000 by norm_num] at hroll
      rw [gt_iff_lt, not_lt, div_le_iff₀ (by norm_num : (0:ℚ) < 100000000)] at hroll
      norm_num at hroll hgt
      linarith
    simp only [Resistor.make, hd, if_neg hroll,
      if_pos (show (e < 1 ∨ 8 < e) by omega)]

/-- Whenever `Resistor.make` succeeds on a positive input, the input was in
`(8.2, 8.2e8]` and the result lies in `[x, 5/4 · x]`. -/
theorem Resistor.make_ok_bounds (x : ℚ) (h0 : 0 < x) (r : Resistor)
    (h : Resistor.make x = .ok r) :
    (8.2 : ℚ) < x ∧ x ≤ (8.2e8 : ℚ) ∧ x ≤ r.toRat ∧ r.toRat ≤ 5/4 * x ∧
      0 < r.toRat := by
  have hlo : (8.2 : ℚ) < x := by
    by_contra hc
    rw [Resistor.make_err_low x h0 (not_lt.mp hc)] at h
    exact Except.noConfusion h
  have hhi : x ≤ (8.2e8 : ℚ) := by
    by_contra hc
    rw [Resistor.make_err_high x (not_le.mp hc)] at h
    exact Except.noConfusion h
  obtain ⟨r0, h0', _, _, _, hge, h54, _⟩ := Resistor.make_total_spec x hlo hhi
  rw [h0'] at h
  injection h with h
  subst h
  exact ⟨hlo, hhi, hge, h54, lt_of_lt_of_le (by linarith) hge⟩

/-! ### The engine's fold -/

theorem Resistor.addPar_ne_int0 (r : Resistor) (p : PyNum) (hp : p ≠ .int0) :
    Resistor.addPar r p =
      (DecimalFloat.make (1 / (1 / r.toRat + 1 / p.toRat))).map .dec := by
  cases p with
  | int0 => exact absurd rfl hp
  | res q => rfl
  | dec q => rfl

/-- Combining a resistor in parallel with a positive running value yields a
`DecimalFloat` carrying the exact parallel combination. -/
theorem Resistor.addPar_pos (r : Resistor) (p : PyNum) (hp : p ≠ .int0)
    (hr : 0 < r.toRat) (hpp : 0 < p.toRat) :
    ∃ d : DecimalFloat, Resistor.addPar r p = .ok (.dec d) ∧ 0 < d.toRat ∧
      d.toRat⁻¹ = r.toRat⁻¹ + p.toRat⁻¹ := by
  have harg : 0 < 1 / (1 / r.toRat + 1 / p.toRat) := by positivity
  obtain ⟨d, hmk, hdr⟩ := DecimalFloat.make_ok_toRat _ harg
  refine ⟨d, ?_, ?_, ?_⟩
  · rw [Resistor.addPar_ne_int0 r p hp, hmk]
    rfl
  · rw [hdr]
    exact harg
  · rw [hdr, one_div, inv_inv, one_div, one_div]

theorem condSum_nil : condSum [] = 0 := rfl

theorem condSum_cons (r : Resistor) (rest : List Resistor) :
    condSum (r :: rest) = (Resistor.toRat r)⁻¹ + condSum rest := by
  simp [condSum]

theorem condSum_append_one (l : List Resistor) (r : Resistor) :
    condSum (l ++ [r]) = condSum l + (Resistor.toRat r)⁻¹ := by
  simp [condSum]

theorem foldAux (l : List Resistor) :
    ∀ a : PyNum, a ≠ .int0 → 0 < a.toRat → (∀ r ∈ l, 0 < r.toRat) →
      ∃ p : PyNum,
        l.foldl (fun (currentValue : Except PyErr PyNum) r =>
          currentValue.bind (Resistor.addPar r)) (Except.ok a) = .ok p ∧
        p ≠ .int0 ∧ 0 < p.toRat ∧ p.toRat⁻¹ = a.toRat⁻¹ + condSum l := by
  induction l with
  | nil =>
    intro a ha hpa _
    exact ⟨a, rfl, ha, hpa, by simp [condSum_nil]⟩
  | cons r rest ih =>
    intro a ha hpa hl
    have hr : 0 < r.toRat := hl r (List.mem_cons_self r rest)
    obtain ⟨d, hadd, hdpos, hdinv⟩ := Resistor.addPar_pos r a ha hr hpa
    simp only [List.foldl_cons]
    have hstep : (Except.ok a : Except PyErr PyNum).bind (Resistor.addPar r) =
        Except.ok (.dec d) := by
      simp only [Except.bind]
      exact hadd
    rw [hstep]
    obtain ⟨p, hfold, hp0, hppos, hpinv⟩ :=
      ih (.dec d) (by simp) hdpos (fun r' hr' => hl r' (List.mem_cons_of_mem _ hr'))
    refine ⟨p, hfold, hp0, hppos, ?_⟩
    rw [hpinv]
    have hd2 : (PyNum.dec d).toRat⁻¹ = r.toRat⁻¹ + a.toRat⁻¹ := hdinv
    rw [hd2, condSum_cons]
    ring

/-- The fold on lines 192-194 over a nonempty list of positive resistors
succeeds and computes the reciprocal of the total conductance. -/
theorem foldCurrent_spec (l : List Resistor) (hne : l ≠ [])
    (hpos : ∀ r ∈ l, 0 < r.toRat) :
    ∃ p : PyNum, foldCurrent l = .ok p ∧ p ≠ .int0 ∧ 0 < p.toRat ∧
      0 < condSum l ∧ p.toRat = (condSum l)⁻¹ := by
  cases l with
  | nil => exact absurd rfl hne
  | cons r rest =>
    have hr : 0 < r.toRat := hpos r (List.mem_cons_self _ _)
    simp only [foldCurrent, List.foldl_cons]
    have hstep : (Except.ok PyNum.int0 : Except PyErr PyNum).bind
        (Resistor.addPar r) = Except.ok (.res r) := by
      simp only [Except.bind]
      rfl
    rw [hstep]
    obtain ⟨p, hfold, hp0, hppos, hpinv⟩ :=
      foldAux rest (.res r) (by simp) hr
        (fun r' h => hpos r' (List.mem_cons_of_mem _ h))
    have hinv2 : p.toRat⁻¹ = condSum (r :: rest) := by
      rw [hpinv, condSum_cons]
      rfl
    refine ⟨p, hfold, hp0, hppos, ?_, ?_⟩
    · rw [← hinv2]
      exact inv_pos.mpr hppos
    · rw [← hinv2, inv_inv]

/-! ### One loop iteration and termination -/

theorem Resistor.subFloatSelf_of_eq (v : ℚ) (p : PyNum) (h : v = p.toRat) :
    Resistor.subFloatSelf v p = .ok .int0 := by
  rw [Resistor.subFloatSelf, if_pos h]

theorem Resistor.subFloatSelf_of_ne (v : ℚ) (p : PyNum) (h : ¬v = p.toRat) :
    Resistor.subFloatSelf v p =
      (DecimalFloat.make (1 / (1 / v - 1 / p.toRat))).map .dec := by
  rw [Resistor.subFloatSelf, if_neg h]

/-- Analysis of one loop iteration on a well-formed accumulator (nonempty,
positive entries, conductance at most `1/v`): either the iteration returns
the list unchanged, or it appends one resistor, keeps the invariant, shrinks
the conductance gap by a factor of at least 5, and certifies the gap was at
least `1/820000000` (otherwise the appended construction would have raised
the range error). -/
theorem loopStep_spec (v tol : ℚ) (hv : 0 < v) (l : List Resistor)
    (hne : l ≠ []) (hpos : ∀ r ∈ l, 0 < r.toRat) (hc : condSum l ≤ 1 / v) :
    loopStep v tol l = .inl l ∨
    ∃ r' : Resistor, loopStep v tol l = .inr (l ++ [r']) ∧ 0 < r'.toRat ∧
      condSum (l ++ [r']) ≤ 1 / v ∧
      1 ≤ 820000000 * (1 / v - condSum l) ∧
      1 / v - condSum (l ++ [r']) ≤ (1 / v - condSum l) / 5 := by
  obtain ⟨p, hfold, hp0, hppos, hcpos, hpval⟩ := foldCurrent_spec l hne hpos
  by_cases htol : |p.toRat - v| / v < tol
  · left
    simp only [loopStep, hfold, if_pos htol]
  by_cases heq : v = p.toRat
  · left
    have hsub := Resistor.subFloatSelf_of_eq v p heq
    simp only [loopStep, hfold, if_neg htol, hsub,
      show Resistor.make (PyNum.toRat .int0) = .error .domainError from
        Resistor.make_zero]
  · -- the conductance gap
    have hone : 1 / p.toRat = condSum l := by
      rw [hpval, one_div, inv_inv]
    have hgpos : 0 < 1 / v - condSum l := by
      rcases lt_or_eq_of_le hc with h | h
      · linarith
      · exfalso
        apply heq
        rw [hpval, h, one_div, inv_inv]
    have hargeq : 1 / (1 / v - 1 / p.toRat) = 1 / (1 / v - condSum l) := by
      rw [hone]
    have hwpos : 0 < 1 / (1 / v - condSum l) := by positivity
    obtain ⟨d, hmk, hdr⟩ := DecimalFloat.make_ok_toRat _ hwpos
    have hsub : Resistor.subFloatSelf v p = .ok (.dec d) := by
      rw [Resistor.subFloatSelf_of_ne v p heq, hargeq, hmk]
      rfl
    have hdrat : (PyNum.dec d).toRat = 1 / (1 / v - condSum l) := hdr
    rcases hmkr : Resistor.make ((PyNum.dec d).toRat) with err | r'
    · left
      simp only [loopStep, hfold, if_neg htol, hsub, hmkr]
    · right
      have hwpos' : 0 < (PyNum.dec d).toRat := by rw [hdrat]; exact hwpos
      obtain ⟨h82, h8e8, hwle, h54, hrpos⟩ :=
        Resistor.make_ok_bounds _ hwpos' r' hmkr
      rw [hdrat] at hwle h54 h8e8
      have hginv : (1 / (1 / v - condSum l))⁻¹ = 1 / v - condSum l := by
        rw [one_div, inv_inv]
      refine ⟨r', ?_, hrpos, ?_, ?_, ?_⟩
      · simp only [loopStep, hfold, if_neg htol, hsub, hmkr]
      · rw [condSum_append_one]
        have h1 : (Resistor.toRat r')⁻¹ ≤ 1 / v - condSum l := by
          have h2 := inv_anti₀ hwpos hwle
          rwa [hginv] at h2
        linarith
      · have h3 : 1 / (1 / v - condSum l) ≤ 820000000 := by
          calc 1 / (1 / v - condSum l) ≤ (8.2e8 : ℚ) := h8e8
          _ = 820000000 := by norm_num
        rw [div_le_iff₀ hgpos] at h3
        linarith
      · rw [condSum_append_one]
        have h4 : (5/4 * (1 / (1 / v - condSum l)))⁻¹ ≤ (Resistor.toRat r')⁻¹ :=
          inv_anti₀ hrpos h54
        have h5 : (5/4 * (1 / (1 / v - condSum l)))⁻¹ = 4/5 * (1 / v - condSum l) := by
          rw [mul_inv, hginv]
          norm_num
        rw [h5] at h4
        linarith

theorem loop_done (n : ℕ) (v tol : ℚ) (l finished : List Resistor)
    (h : loopStep v tol l = .inl finished) :
    loop (n + 1) v tol l = some finished := by
  simp [loop, h]

theorem loop_cont (n : ℕ) (v tol : ℚ) (l next : List Resistor)
    (h : loopStep v tol l = .inr next) :
    loop (n + 1) v tol l = loop n v tol next := by
  simp [loop, h]

/-- Adding fuel does not change a loop run that already finished. -/
theorem loop_mono : ∀ (n : ℕ) (v tol : ℚ) (l out : List Resistor),
    loop n v tol l = some out → ∀ m, n ≤ m → loop m v tol l = some out := by
  intro n
  induction n with
  | zero =>
    intro v tol l out h
    exact absurd h (by simp [loop])
  | succ k ih =>
    intro v tol l out h m hm
    obtain ⟨m', rfl⟩ : ∃ m', m = m' + 1 := ⟨m - 1, by omega⟩
    rcases hstep : loopStep v tol l with finished | next
    · rw [loop_done k _ _ _ _ hstep] at h
      rw [loop_done m' _ _ _ _ hstep]
      exact h
    · rw [loop_cont k _ _ _ _ hstep] at h
      rw [loop_cont m' _ _ _ _ hstep]
      exact ih _ _ _ _ h m' (by omega)

/-- Fuel bound: once the scaled conductance gap is below `5 ^ fuel`, the
loop finishes within `fuel + 1` iterations (each continuing iteration
divides the gap by at least 5, and a gap below `1/820000000` forces the
range-error exit). -/
theorem loop_some (v tol : ℚ) (hv : 0 < v) :
    ∀ (fuel : ℕ) (l : List Resistor), l ≠ [] → (∀ r ∈ l, 0 < r.toRat) →
      condSum l ≤ 1 / v → (1 / v - condSum l) * 820000000 < 5 ^ fuel →
      ∃ out, loop (fuel + 1) v tol l = some out := by
  intro fuel
  induction fuel with
  | zero =>
    intro l hne hpos hc hg
    rcases loopStep_spec v tol hv l hne hpos hc with h | ⟨r', _, _, _, hbig, _⟩
    · exact ⟨l, loop_done 0 _ _ _ _ h⟩
    · exfalso
      rw [pow_zero] at hg
      linarith
  | succ n ih =>
    intro l hne hpos hc hg
    rcases loopStep_spec v tol hv l hne hpos hc with h | ⟨r', hstep, hrpos, hc', _, hgap⟩
    · exact ⟨l, loop_done (n + 1) _ _ _ _ h⟩
    · rw [loop_cont (n + 1) _ _ _ _ hstep]
      apply ih (l ++ [r']) (by simp) ?_ hc' ?_
      · intro r hr
        rcases List.mem_append.mp hr with h' | h'
        · exact hpos r h'
        · rw [List.mem_singleton.mp h']
          exact hrpos
      · have h5 : (5:ℚ) ^ (n + 1) = 5 ^ n * 5 := pow_succ 5 n
        rw [h5] at hg
        linarith

/-! ### Concrete-evaluation helpers -/

theorem DecimalFloat.make_eval' (v m : ℚ) (e : ℤ) (h0 : 0 < v)
    (h1 : (10 : ℚ) ^ e ≤ v) (h2 : v < (10 : ℚ) ^ (e + 1))
    (hm : v / (10 : ℚ) ^ e = m) :
    DecimalFloat.make v = .ok ⟨m, e⟩ := by
  rw [DecimalFloat.make_eval v e h0 h1 h2, hm]

theorem Resistor.make_eval_mk' (x xm : ℚ) (e : ℤ) (m' : ℚ)
    (h0 : 0 < x) (h1 : (10 : ℚ) ^ e ≤ x) (h2 : x < (10 : ℚ) ^ (e + 1))
    (hxm : x / (10 : ℚ) ^ e = xm) (hroll : ¬xm > 8.2) (he1 : 1 ≤ e) (he8 : e ≤ 8)
    (hfind : findGE xm Resistor.mantissas = some m') :
    Resistor.make x = .ok ⟨⟨m', e⟩⟩ := by
  apply Resistor.make_eval_mk x e m' h0 h1 h2 _ he1 he8
  · rw [hxm]
    exact hfind
  · rw [hxm]
    exact hroll

theorem Resistor.make_eval_roll' (x xm : ℚ) (e e' : ℤ)
    (h0 : 0 < x) (h1 : (10 : ℚ) ^ e ≤ x) (h2 : x < (10 : ℚ) ^ (e + 1))
    (hxm : x / (10 : ℚ) ^ e = xm) (hroll : xm > 8.2) (he0 : 0 ≤ e) (he7 : e ≤ 7)
    (he' : e + 1 = e') :
    Resistor.make x = .ok ⟨⟨1, e'⟩⟩ := by
  rw [← he']
  apply Resistor.make_eval_roll x e h0 h1 h2 _ he0 he7
  rw [hxm]
  exact hroll

theorem findGE_one (x : ℚ) (h : x ≤ 1) : findGE x Resistor.mantissas = some 1 := by
  rw [mantissas_eq]
  exact findGE_cons_pos h _

theorem findGE_snap_32 (x : ℚ) (h1 : 6/5 < x) (h2 : x ≤ 3/2) :
    findGE x Resistor.mantissas = some (3/2) := by
  rw [mantissas_eq, findGE_cons_neg (by linarith), findGE_cons_neg (by linarith),
    findGE_cons_pos h2]

theorem findGE_snap_4710 (x : ℚ) (h1 : 39/10 < x) (h2 : x ≤ 47/10) :
    findGE x Resistor.mantissas = some (47/10) := by
  rw [mantissas_eq, findGE_cons_neg (by linarith), findGE_cons_neg (by linarith),
    findGE_cons_neg (by linarith), findGE_cons_neg (by linarith),
    findGE_cons_neg (by linarith), findGE_cons_neg (by linarith),
    findGE_cons_neg (by linarith), findGE_cons_neg (by linarith),
    findGE_cons_pos h2]

theorem findGE_snap_415 (x : ℚ) (h1 : 34/5 < x) (h2 : x ≤ 41/5) :
    findGE x Resistor.mantissas = some (41/5) := by
  rw [mantissas_eq, findGE_cons_neg (by linarith), findGE_cons_neg (by linarith),
    findGE_cons_neg (by linarith), findGE_cons_neg (by linarith),
    findGE_cons_neg (by linarith), findGE_cons_neg (by linarith),
    findGE_cons_neg (by linarith), findGE_cons_neg (by linarith),
    findGE_cons_neg (by linarith), findGE_cons_neg (by linarith),
    findGE_cons_neg (by linarith), findGE_cons_pos h2]

/-! ### Claim theorems -/

/-- C1: for every target in the representable range `[10, 8.2e8]` and
every tolerance `≥ 0`, `approximateResistor` terminates: the loop returns
a sequence (tolerance success, or the range error raised by constructing
the next resistor caught by the handler); no fuel of at least 20 is ever
exhausted, so there is no infinite run. -/
theorem approximateResistor_terminates (v tol : ℚ) (hv10 : 10 ≤ v)
    (hvhi : v ≤ (8.2e8 : ℚ)) (htol : 0 ≤ tol) :
    ∃ l, ∀ fuel : ℕ, 20 ≤ fuel → approximateResistor fuel v tol = .ok (some l) := by
  have hv0 : (0 : ℚ) < v := by linarith
  have hlo : (8.2 : ℚ) < v := lt_of_lt_of_le (by norm_num) hv10
  obtain ⟨r, hmk, _, _, _, hge, h54, _⟩ := Resistor.make_total_spec v hlo hvhi
  have hrpos : 0 < r.toRat := by linarith
  have hne : ([r] : List Resistor) ≠ [] := by simp
  have hpos : ∀ x ∈ [r], 0 < Resistor.toRat x := by
    intro x hx
    rw [List.mem_singleton.mp hx]
    exact hrpos
  have hcs : condSum [r] = (Resistor.toRat r)⁻¹ := by
    rw [condSum_cons, condSum_nil, add_zero]
  have hc : condSum [r] ≤ 1 / v := by
    rw [hcs, one_div]
    exact inv_anti₀ hv0 hge
  have hg : (1 / v - condSum [r]) * 820000000 < 5 ^ 19 := by
    have h1 : 0 < (Resistor.toRat r)⁻¹ := inv_pos.mpr hrpos
    have h2 : 1 / v ≤ 1 / 10 := by
      apply div_le_div_of_nonneg_left (by norm_num) (by norm_num) hv10
    have h3 : (5 : ℚ) ^ 19 = 19073486328125 := by norm_num
    rw [hcs, h3]
    nlinarith
  obtain ⟨out, hloop⟩ := loop_some v tol hv0 19 [r] hne hpos hc hg
  refine ⟨out, fun fuel hfuel => ?_⟩
  simp only [approximateResistor, hmk]
  rw [loop_mono (19 + 1) v tol [r] out hloop fuel (by omega)]

theorem approximateResistor_terminates_witness :
    (10 : ℚ) ≤ 1234 ∧ (1234 : ℚ) ≤ (8.2e8 : ℚ) ∧ (0 : ℚ) ≤ 1/100 ∧
      ∃ l, ∀ fuel : ℕ, 20 ≤ fuel →
        approximateResistor fuel 1234 (1/100) = .ok (some l) :=
  ⟨by norm_num, by norm_num, by norm_num,
    approximateResistor_terminates 1234 (1/100) (by norm_num) (by norm_num)
      (by norm_num)⟩

/-- C2: every `v ∈ [10, 8.2e8]` constructs successfully; the resistor's
value is at least `v` (rounding is upward), its mantissa is one of the
twelve E12 steps — the least step compatible with `v` at the chosen
exponent — and its exponent lies in `[1, 8]`. -/
theorem resistor_make_rounds_up (v : ℚ) (h10 : 10 ≤ v) (hhi : v ≤ (8.2e8 : ℚ)) :
    ∃ r : Resistor, Resistor.make v = .ok r ∧ v ≤ r.toRat ∧
      r.value.mantissa ∈ Resistor.mantissas ∧
      1 ≤ r.value.exponent ∧ r.value.exponent ≤ 8 ∧
      ∀ y ∈ Resistor.mantissas, v ≤ y * (10 : ℚ) ^ r.value.exponent →
        r.value.mantissa ≤ y := by
  obtain ⟨r, hmk, hmem, he1, he8, hge, _, hmin⟩ :=
    Resistor.make_total_spec v (lt_of_lt_of_le (by norm_num) h10) hhi
  exact ⟨r, hmk, hge, hmem, he1, he8, hmin⟩

theorem resistor_make_rounds_up_witness :
    (10 : ℚ) ≤ 4700 ∧ (4700 : ℚ) ≤ (8.2e8 : ℚ) ∧
      ∃ r : Resistor, Resistor.make 4700 = .ok r ∧ (4700 : ℚ) ≤ r.toRat ∧
        r.value.mantissa ∈ Resistor.mantissas ∧
        1 ≤ r.value.exponent ∧ r.value.exponent ≤ 8 ∧
        ∀ y ∈ Resistor.mantissas, (4700 : ℚ) ≤ y * (10 : ℚ) ^ r.value.exponent →
          r.value.mantissa ≤ y :=
  ⟨by norm_num, by norm_num,
    resistor_make_rounds_up 4700 (by norm_num) (by norm_num)⟩

/-- C3 counterexample: `Resistor(9)` succeeds (the mantissa `9 > 8.2` rolls
over to `1.0` with the exponent bumped to `1`, inside `[1, 8]`), although
`9` lies outside `[10, 8.2e8]` — so "range error iff outside `[10, 8.2e8]`"
is false. -/
theorem resistor_make_nine_ok :
    Resistor.make 9 = .ok ⟨⟨1, 1⟩⟩ ∧ ¬((10 : ℚ) ≤ 9) :=
  ⟨Resistor.make_eval_roll' 9 9 0 1 (by norm_num) (by norm_num) (by norm_num)
      (by norm_num) (by norm_num) (by norm_num) (by norm_num) (by norm_num),
    by norm_num⟩

/-- C3 (amended): for positive input, `Resistor` construction raises the
range error iff the input lies outside `(8.2, 8.2e8]`: the exponent left
after the rollover step is outside `[1, 8]` exactly then.  (Inputs in
`(8.2, 10)` roll over to exponent `1` and succeed.) -/
theorem resistor_make_rangeError_iff (v : ℚ) (h0 : 0 < v) :
    Resistor.make v = .error .rangeError ↔ (v ≤ (8.2 : ℚ) ∨ (8.2e8 : ℚ) < v) := by
  constructor
  · intro h
    by_contra hc
    push_neg at hc
    obtain ⟨r, hmk, _⟩ := Resistor.make_total_spec v hc.1 hc.2
    rw [hmk] at h
    exact Except.noConfusion h
  · intro h
    rcases h with h | h
    · exact Resistor.make_err_low v h0 h
    · exact Resistor.make_err_high v h

theorem resistor_make_rangeError_iff_witness :
    (0 : ℚ) < 5 ∧
      (Resistor.make 5 = .error .rangeError ↔
        ((5 : ℚ) ≤ (8.2 : ℚ) ∨ (8.2e8 : ℚ) < 5)) :=
  ⟨by norm_num, resistor_make_rangeError_iff 5 (by norm_num)⟩

/-- C6: every positive `v` yields a normalized base-10 float: the mantissa
is in `[1, 10)`, `mantissa * 10 ^ exponent` reproduces `v` exactly, and the
exponent is the floor of `log10 v` (characterised by the power-of-ten
bracket), as produced by the truncation plus corrective decrement. -/
theorem decimalFloat_make_normalized (v : ℚ) (hv : 0 < v) :
    ∃ d : DecimalFloat, DecimalFloat.make v = .ok d ∧
      1 ≤ d.mantissa ∧ d.mantissa < 10 ∧
      d.mantissa * (10 : ℚ) ^ d.exponent = v ∧
      (10 : ℚ) ^ d.exponent ≤ v ∧ v < (10 : ℚ) ^ (d.exponent + 1) := by
  obtain ⟨e, hmk, hlow, hup⟩ := DecimalFloat.make_spec v hv
  have hpe : (0 : ℚ) < (10 : ℚ) ^ e := zpow10_pos e
  refine ⟨⟨v / (10 : ℚ) ^ e, e⟩, hmk, ?_, ?_, ?_, hlow, hup⟩
  · exact (one_le_div hpe).mpr hlow
  · rw [div_lt_iff₀ hpe]
    calc v < (10 : ℚ) ^ (e + 1) := hup
    _ = (10 : ℚ) ^ e * 10 := zpow_add_one₀ (by norm_num) e
    _ = 10 * (10 : ℚ) ^ e := by ring
  · exact div_mul_cancel₀ v hpe.ne'

theorem decimalFloat_make_normalized_witness :
    (0 : ℚ) < 4700 ∧
      ∃ d : DecimalFloat, DecimalFloat.make 4700 = .ok d ∧
        1 ≤ d.mantissa ∧ d.mantissa < 10 ∧
        d.mantissa * (10 : ℚ) ^ d.exponent = 4700 ∧
        (10 : ℚ) ^ d.exponent ≤ 4700 ∧ (4700 : ℚ) < (10 : ℚ) ^ (d.exponent + 1) :=
  ⟨by norm_num, decimalFloat_make_normalized 4700 (by norm_num)⟩

theorem foldCurrent_append_one (l : List Resistor) (r : Resistor) :
    foldCurrent (l ++ [r]) = (foldCurrent l).bind (Resistor.addPar r) := by
  simp only [foldCurrent, List.foldl_append, List.foldl_cons, List.foldl_nil]

theorem Resistor.addPar_eval (r : Resistor) (p : PyNum) (w m : ℚ) (e : ℤ)
    (hp : p ≠ .int0)
    (hw : 1 / (1 / r.toRat + 1 / p.toRat) = w)
    (h0 : 0 < w) (h1 : (10 : ℚ) ^ e ≤ w) (h2 : w < (10 : ℚ) ^ (e + 1))
    (hm : w / (10 : ℚ) ^ e = m) :
    Resistor.addPar r p = .ok (.dec ⟨m, e⟩) := by
  rw [Resistor.addPar_ne_int0 r p hp, hw, DecimalFloat.make_eval' w m e h0 h1 h2 hm]
  rfl

theorem Resistor.subFloatSelf_eval (v : ℚ) (p : PyNum) (w m : ℚ) (e : ℤ)
    (hne : ¬v = p.toRat)
    (hw : 1 / (1 / v - 1 / p.toRat) = w)
    (h0 : 0 < w) (h1 : (10 : ℚ) ^ e ≤ w) (h2 : w < (10 : ℚ) ^ (e + 1))
    (hm : w / (10 : ℚ) ^ e = m) :
    Resistor.subFloatSelf v p = .ok (.dec ⟨m, e⟩) := by
  rw [Resistor.subFloatSelf_of_ne v p hne, hw,
    DecimalFloat.make_eval' w m e h0 h1 h2 hm]
  rfl

theorem loopStep_eval_cont (v tol : ℚ) (l : List Resistor) (cv diff : PyNum)
    (r' : Resistor)
    (hfold : foldCurrent l = .ok cv)
    (htol : ¬|cv.toRat - v| / v < tol)
    (hsub : Resistor.subFloatSelf v cv = .ok diff)
    (hmk : Resistor.make diff.toRat = .ok r') :
    loopStep v tol l = .inr (l ++ [r']) := by
  simp only [loopStep, hfold, if_neg htol, hsub, hmk]

theorem loopStep_eval_done (v tol : ℚ) (l : List Resistor) (cv : PyNum)
    (hfold : foldCurrent l = .ok cv)
    (htol : |cv.toRat - v| / v < tol) :
    loopStep v tol l = .inl l := by
  simp only [loopStep, hfold, if_pos htol]

/-- C4 counterexample: the target `9` is below `10`, yet the initial
construction does **not** fail — `Resistor(9)` rolls over to `10` — and
`approximateResistor 9` returns the three-resistor sequence
`[10, 100, 1000]` (a 0.1% approximation), not an error. -/
theorem approximateResistor_nine_succeeds :
    approximateResistor 20 9 (1/100) =
      .ok (some [⟨⟨1, 1⟩⟩, ⟨⟨1, 2⟩⟩, ⟨⟨1, 3⟩⟩]) ∧ (9 : ℚ) < 10 := by
  refine ⟨?_, by norm_num⟩
  have hmk0 : Resistor.make 9 = .ok ⟨⟨1, 1⟩⟩ :=
    Resistor.make_eval_roll' 9 9 0 1 (by norm_num) (by norm_num) (by norm_num)
      (by norm_num) (by norm_num) (by norm_num) (by norm_num) (by norm_num)
  have hfold1 : foldCurrent [⟨⟨1, 1⟩⟩] = .ok (.res ⟨⟨1, 1⟩⟩) := rfl
  have hfold2 : foldCurrent [⟨⟨1, 1⟩⟩, ⟨⟨1, 2⟩⟩] = .ok (.dec ⟨100/11, 0⟩) := by
    rw [show ([⟨⟨1, 1⟩⟩, ⟨⟨1, 2⟩⟩] : List Resistor) = [⟨⟨1, 1⟩⟩] ++ [⟨⟨1, 2⟩⟩]
        from rfl,
      foldCurrent_append_one, hfold1]
    simp only [Except.bind]
    exact Resistor.addPar_eval _ _ (100/11) (100/11) 0 (by simp)
      (by norm_num [Resistor.toRat, DecimalFloat.toRat, PyNum.toRat])
      (by norm_num) (by norm_num) (by norm_num) (by norm_num)
  have hfold3 : foldCurrent [⟨⟨1, 1⟩⟩, ⟨⟨1, 2⟩⟩, ⟨⟨1, 3⟩⟩] =
      .ok (.dec ⟨1000/111, 0⟩) := by
    rw [show ([⟨⟨1, 1⟩⟩, ⟨⟨1, 2⟩⟩, ⟨⟨1, 3⟩⟩] : List Resistor) =
        [⟨⟨1, 1⟩⟩, ⟨⟨1, 2⟩⟩] ++ [⟨⟨1, 3⟩⟩] from rfl,
      foldCurrent_append_one, hfold2]
    simp only [Except.bind]
    exact Resistor.addPar_eval _ _ (1000/111) (1000/111) 0 (by simp)
      (by norm_num [Resistor.toRat, DecimalFloat.toRat, PyNum.toRat])
      (by norm_num) (by norm_num) (by norm_num) (by norm_num)
  have hstepA : loopStep 9 (1/100) [⟨⟨1, 1⟩⟩] =
      .inr ([⟨⟨1, 1⟩⟩] ++ [⟨⟨1, 2⟩⟩]) := by
    apply loopStep_eval_cont 9 (1/100) _ (.res ⟨⟨1, 1⟩⟩) (.dec ⟨9, 1⟩) ⟨⟨1, 2⟩⟩
      hfold1
    · norm_num [PyNum.toRat, Resistor.toRat, DecimalFloat.toRat]
    · exact Resistor.subFloatSelf_eval 9 _ 90 9 1
        (by norm_num [PyNum.toRat, Resistor.toRat, DecimalFloat.toRat])
        (by norm_num [PyNum.toRat, Resistor.toRat, DecimalFloat.toRat])
        (by norm_num) (by norm_num) (by norm_num) (by norm_num)
    · rw [show (PyNum.dec ⟨9, 1⟩).toRat = 90 by
          norm_num [PyNum.toRat, DecimalFloat.toRat]]
      exact Resistor.make_eval_roll' 90 9 1 2 (by norm_num) (by norm_num)
        (by norm_num) (by norm_num) (by norm_num) (by norm_num) (by norm_num)
        (by norm_num)
  have hstepB : loopStep 9 (1/100) [⟨⟨1, 1⟩⟩, ⟨⟨1, 2⟩⟩] =
      .inr ([⟨⟨1, 1⟩⟩, ⟨⟨1, 2⟩⟩] ++ [⟨⟨1, 3⟩⟩]) := by
    apply loopStep_eval_cont 9 (1/100) _ (.dec ⟨100/11, 0⟩) (.dec ⟨9, 2⟩)
      ⟨⟨1, 3⟩⟩ hfold2
    · norm_num [PyNum.toRat, DecimalFloat.toRat]
      rw [abs_of_nonneg (by norm_num : (0:ℚ) ≤ 1/11)]
      norm_num
    · exact Resistor.subFloatSelf_eval 9 _ 900 9 2
        (by norm_num [PyNum.toRat, DecimalFloat.toRat])
        (by norm_num [PyNum.toRat, DecimalFloat.toRat])
        (by norm_num) (by norm_num) (by norm_num) (by norm_num)
    · rw [show (PyNum.dec ⟨9, 2⟩).toRat = 900 by
          norm_num [PyNum.toRat, DecimalFloat.toRat]]
      exact Resistor.make_eval_roll' 900 9 2 3 (by norm_num) (by norm_num)
        (by norm_num) (by norm_num) (by norm_num) (by norm_num) (by norm_num)
        (by norm_num)
  have hstepC : loopStep 9 (1/100) [⟨⟨1, 1⟩⟩, ⟨⟨1, 2⟩⟩, ⟨⟨1, 3⟩⟩] =
      .inl [⟨⟨1, 1⟩⟩, ⟨⟨1, 2⟩⟩, ⟨⟨1, 3⟩⟩] := by
    apply loopStep_eval_done 9 (1/100) _ (.dec ⟨1000/111, 0⟩) hfold3
    norm_num [PyNum.toRat, DecimalFloat.toRat]
    rw [abs_of_nonneg (by norm_num : (0:ℚ) ≤ 1/111)]
    norm_num
  simp only [approximateResistor, hmk0]
  rw [show (20 : ℕ) = 19 + 1 from rfl, loop_cont 19 _ _ _ _ hstepA,
    show ([⟨⟨1, 1⟩⟩] ++ [⟨⟨1, 2⟩⟩] : List Resistor) = [⟨⟨1, 1⟩⟩, ⟨⟨1, 2⟩⟩]
      from rfl,
    show (19 : ℕ) = 18 + 1 from rfl, loop_cont 18 _ _ _ _ hstepB,
    show ([⟨⟨1, 1⟩⟩, ⟨⟨1, 2⟩⟩] ++ [⟨⟨1, 3⟩⟩] : List Resistor) =
      [⟨⟨1, 1⟩⟩, ⟨⟨1, 2⟩⟩, ⟨⟨1, 3⟩⟩] from rfl,
    show (18 : ℕ) = 17 + 1 from rfl, loop_done 17 _ _ _ _ hstepC]

/-- C4 (amended): for every positive target of at most `8.2` (not every
target below `10`: targets in `(8.2, 10)` round up to `10` Ω and succeed),
the initial `Resistor(value)` construction on line 189 fails with the range
error; it sits outside the `try` block, so the error is not caught by the
loop handler and propagates to the caller — no sequence is returned. -/
theorem approximateResistor_low_target_error (fuel : ℕ) (v tol : ℚ)
    (h0 : 0 < v) (hle : v ≤ (8.2 : ℚ)) :
    approximateResistor fuel v tol = .error .rangeError := by
  simp only [approximateResistor, Resistor.make_err_low v h0 hle]

theorem approximateResistor_low_target_error_witness :
    (0 : ℚ) < 5 ∧ (5 : ℚ) ≤ (8.2 : ℚ) ∧
      approximateResistor 20 5 (1/100) = .error .rangeError :=
  ⟨by norm_num, by norm_num,
    approximateResistor_low_target_error 20 5 (1/100) (by norm_num) (by norm_num)⟩

/-- C5: `approximateResistor 1234 (1/100)` returns the three resistors
`[1.5kΩ, 8.2kΩ, 47kΩ]` — more than one — and the parallel combination
`2890500/2341 ≈ 1234.73` has relative error `853/1444397 < 0.01` against
`1234`. -/
theorem approximateResistor_1234 :
    approximateResistor 20 1234 (1/100) =
      .ok (some [⟨⟨3/2, 3⟩⟩, ⟨⟨41/5, 3⟩⟩, ⟨⟨47/10, 4⟩⟩]) ∧
    1 < ([⟨⟨3/2, 3⟩⟩, ⟨⟨41/5, 3⟩⟩, ⟨⟨47/10, 4⟩⟩] : List Resistor).length ∧
    |(condSum [⟨⟨3/2, 3⟩⟩, ⟨⟨41/5, 3⟩⟩, ⟨⟨47/10, 4⟩⟩])⁻¹ - 1234| / 1234 <
      1/100 := by
  refine ⟨?_, by norm_num, ?_⟩
  · have hmk0 : Resistor.make 1234 = .ok ⟨⟨3/2, 3⟩⟩ :=
      Resistor.make_eval_mk' 1234 (617/500) 3 (3/2) (by norm_num) (by norm_num)
        (by norm_num) (by norm_num) (by norm_num) (by norm_num) (by norm_num)
        (findGE_snap_32 (617/500) (by norm_num) (by norm_num))
    have hfold1 : foldCurrent [⟨⟨3/2, 3⟩⟩] = .ok (.res ⟨⟨3/2, 3⟩⟩) := rfl
    have hfold2 : foldCurrent [⟨⟨3/2, 3⟩⟩, ⟨⟨41/5, 3⟩⟩] =
        .ok (.dec ⟨123/97, 3⟩) := by
      rw [show ([⟨⟨3/2, 3⟩⟩, ⟨⟨41/5, 3⟩⟩] : List Resistor) =
          [⟨⟨3/2, 3⟩⟩] ++ [⟨⟨41/5, 3⟩⟩] from rfl,
        foldCurrent_append_one, hfold1]
      simp only [Except.bind]
      exact Resistor.addPar_eval _ _ (123000/97) (123/97) 3 (by simp)
        (by norm_num [Resistor.toRat, DecimalFloat.toRat, PyNum.toRat])
        (by norm_num) (by norm_num) (by norm_num) (by norm_num)
    have hfold3 : foldCurrent [⟨⟨3/2, 3⟩⟩, ⟨⟨41/5, 3⟩⟩, ⟨⟨47/10, 4⟩⟩] =
        .ok (.dec ⟨5781/4682, 3⟩) := by
      rw [show ([⟨⟨3/2, 3⟩⟩, ⟨⟨41/5, 3⟩⟩, ⟨⟨47/10, 4⟩⟩] : List Resistor) =
          [⟨⟨3/2, 3⟩⟩, ⟨⟨41/5, 3⟩⟩] ++ [⟨⟨47/10, 4⟩⟩] from rfl,
        foldCurrent_append_one, hfold2]
      simp only [Except.bind]
      exact Resistor.addPar_eval _ _ (2890500/2341) (5781/4682) 3 (by simp)
        (by norm_num [Resistor.toRat, DecimalFloat.toRat, PyNum.toRat])
        (by norm_num) (by norm_num) (by norm_num) (by norm_num)
    have hstepA : loopStep 1234 (1/100) [⟨⟨3/2, 3⟩⟩] =
        .inr ([⟨⟨3/2, 3⟩⟩] ++ [⟨⟨41/5, 3⟩⟩]) := by
      apply loopStep_eval_cont 1234 (1/100) _ (.res ⟨⟨3/2, 3⟩⟩)
        (.dec ⟨1851/266, 3⟩) ⟨⟨41/5, 3⟩⟩ hfold1
      · rw [show (PyNum.res ⟨⟨3/2, 3⟩⟩).toRat - (1234:ℚ) = 266 from by
            norm_num [PyNum.toRat, Resistor.toRat, DecimalFloat.toRat],
          abs_of_nonneg (by norm_num : (0:ℚ) ≤ 266)]
        norm_num
      · exact Resistor.subFloatSelf_eval 1234 _ (925500/133) (1851/266) 3
          (by norm_num [PyNum.toRat, Resistor.toRat, DecimalFloat.toRat])
          (by norm_num [PyNum.toRat, Resistor.toRat, DecimalFloat.toRat])
          (by norm_num) (by norm_num) (by norm_num) (by norm_num)
      · rw [show (PyNum.dec ⟨1851/266, 3⟩).toRat = 925500/133 from by
            norm_num [PyNum.toRat, DecimalFloat.toRat]]
        exact Resistor.make_eval_mk' (925500/133) (1851/266) 3 (41/5)
          (by norm_num) (by norm_num) (by norm_num) (by norm_num) (by norm_num)
          (by norm_num) (by norm_num)
          (findGE_snap_415 (1851/266) (by norm_num) (by norm_num))
    have hstepB : loopStep 1234 (1/100) [⟨⟨3/2, 3⟩⟩, ⟨⟨41/5, 3⟩⟩] =
        .inr ([⟨⟨3/2, 3⟩⟩, ⟨⟨41/5, 3⟩⟩] ++ [⟨⟨47/10, 4⟩⟩]) := by
      apply loopStep_eval_cont 1234 (1/100) _ (.dec ⟨123/97, 3⟩)
        (.dec ⟨75891/16510, 4⟩) ⟨⟨47/10, 4⟩⟩ hfold2
      · rw [show (PyNum.dec ⟨123/97, 3⟩).toRat - (1234:ℚ) = 3302/97 from by
            norm_num [PyNum.toRat, DecimalFloat.toRat],
          abs_of_nonneg (by norm_num : (0:ℚ) ≤ 3302/97)]
        norm_num
      · exact Resistor.subFloatSelf_eval 1234 _ (75891000/1651) (75891/16510) 4
          (by norm_num [PyNum.toRat, DecimalFloat.toRat])
          (by norm_num [PyNum.toRat, DecimalFloat.toRat])
          (by norm_num) (by norm_num) (by norm_num) (by norm_num)
      · rw [show (PyNum.dec ⟨75891/16510, 4⟩).toRat = 75891000/1651 from by
            norm_num [PyNum.toRat, DecimalFloat.toRat]]
        exact Resistor.make_eval_mk' (75891000/1651) (75891/16510) 4 (47/10)
          (by norm_num) (by norm_num) (by norm_num) (by norm_num) (by norm_num)
          (by norm_num) (by norm_num)
          (findGE_snap_4710 (75891/16510) (by norm_num) (by norm_num))
    have hstepC : loopStep 1234 (1/100)
          [⟨⟨3/2, 3⟩⟩, ⟨⟨41/5, 3⟩⟩, ⟨⟨47/10, 4⟩⟩] =
        .inl [⟨⟨3/2, 3⟩⟩, ⟨⟨41/5, 3⟩⟩, ⟨⟨47/10, 4⟩⟩] := by
      apply loopStep_eval_done 1234 (1/100) _ (.dec ⟨5781/4682, 3⟩) hfold3
      rw [show (PyNum.dec ⟨5781/4682, 3⟩).toRat - (1234:ℚ) = 1706/2341 from by
          norm_num [PyNum.toRat, DecimalFloat.toRat],
        abs_of_nonneg (by norm_num : (0:ℚ) ≤ 1706/2341)]
      norm_num
    simp only [approximateResistor, hmk0]
    rw [show (20 : ℕ) = 19 + 1 from rfl, loop_cont 19 _ _ _ _ hstepA,
      show ([⟨⟨3/2, 3⟩⟩] ++ [⟨⟨41/5, 3⟩⟩] : List Resistor) =
        [⟨⟨3/2, 3⟩⟩, ⟨⟨41/5, 3⟩⟩] from rfl,
      show (19 : ℕ) = 18 + 1 from rfl, loop_cont 18 _ _ _ _ hstepB,
      show ([⟨⟨3/2, 3⟩⟩, ⟨⟨41/5, 3⟩⟩] ++ [⟨⟨47/10, 4⟩⟩] : List Resistor) =
        [⟨⟨3/2, 3⟩⟩, ⟨⟨41/5, 3⟩⟩, ⟨⟨47/10, 4⟩⟩] from rfl,
      show (18 : ℕ) = 17 + 1 from rfl, loop_done 17 _ _ _ _ hstepC]
  · have hcs : condSum [⟨⟨3/2, 3⟩⟩, ⟨⟨41/5, 3⟩⟩, ⟨⟨47/10, 4⟩⟩] =
        2341/2890500 := by
      norm_num [condSum, Resistor.toRat, DecimalFloat.toRat, List.map_cons,
        List.map_nil, List.sum_cons, List.sum_nil]
    rw [hcs, show ((2341:ℚ)/2890500)⁻¹ = 2890500/2341 from by norm_num,
      show (2890500:ℚ)/2341 - 1234 = 1706/2341 from by norm_num,
      abs_of_nonneg (by norm_num : (0:ℚ) ≤ 1706/2341)]
    norm_num

/-- C7: `Format` renders engineering notation with the decimal point
replaced by the unit letter and `'0'` stripped from the ends:
`Resistor(4700)` gives `"4K7"`, `Resistor(100)` gives `"100R"`, and
`Resistor(1000)` gives `"1K"`. -/
theorem resistor_format_examples :
    (Resistor.make 4700).map Resistor.str = .ok "4K7" ∧
    (Resistor.make 100).map Resistor.str = .ok "100R" ∧
    (Resistor.make 1000).map Resistor.str = .ok "1K" := by
  have hmk1 : Resistor.make 4700 = .ok ⟨⟨47/10, 3⟩⟩ :=
    Resistor.make_eval_mk' 4700 (47/10) 3 (47/10) (by norm_num) (by norm_num)
      (by norm_num) (by norm_num) (by norm_num) (by norm_num) (by norm_num)
      (findGE_snap_4710 (47/10) (by norm_num) (by norm_num))
  have hmk2 : Resistor.make 100 = .ok ⟨⟨1, 2⟩⟩ :=
    Resistor.make_eval_mk' 100 1 2 1 (by norm_num) (by norm_num) (by norm_num)
      (by norm_num) (by norm_num) (by norm_num) (by norm_num)
      (findGE_one 1 le_rfl)
  have hmk3 : Resistor.make 1000 = .ok ⟨⟨1, 3⟩⟩ :=
    Resistor.make_eval_mk' 1000 1 3 1 (by norm_num) (by norm_num) (by norm_num)
      (by norm_num) (by norm_num) (by norm_num) (by norm_num)
      (findGE_one 1 le_rfl)
  have hs1 : Resistor.str ⟨⟨47/10, 3⟩⟩ = "4K7" := by
    simp only [Resistor.str]
    rw [show (((3:ℤ) % 3).toNat) = 0 from rfl, show (((3:ℤ) / 3).toNat) = 1 from rfl,
      show ((47:ℚ)/10 * (10:ℚ) ^ (0:ℕ)) = 47/10 from by norm_num]
    rw [pyFloatRepr, if_neg (by norm_num : ¬((⌊(47:ℚ)/10⌋ : ℚ) = 47/10)),
      show ⌊(47:ℚ)/10⌋ = 4 from by norm_num,
      show ⌊(47:ℚ)/10 * 10⌋ = 47 from by norm_num]
    rfl
  have hs2 : Resistor.str ⟨⟨1, 2⟩⟩ = "100R" := by
    simp only [Resistor.str]
    rw [show (((2:ℤ) % 3).toNat) = 2 from rfl, show (((2:ℤ) / 3).toNat) = 0 from rfl,
      show ((1:ℚ) * (10:ℚ) ^ (2:ℕ)) = 100 from by norm_num]
    rw [pyFloatRepr, if_pos (by norm_num : ((⌊(100:ℚ)⌋ : ℚ) = 100)),
      show ⌊(100:ℚ)⌋ = 100 from by norm_num]
    rfl
  have hs3 : Resistor.str ⟨⟨1, 3⟩⟩ = "1K" := by
    simp only [Resistor.str]
    rw [show (((3:ℤ) % 3).toNat) = 0 from rfl, show (((3:ℤ) / 3).toNat) = 1 from rfl,
      show ((1:ℚ) * (10:ℚ) ^ (0:ℕ)) = 1 from by norm_num]
    rw [pyFloatRepr, if_pos (by norm_num : ((⌊(1:ℚ)⌋ : ℚ) = 1)),
      show ⌊(1:ℚ)⌋ = 1 from by norm_num]
    rfl
  refine ⟨?_, ?_, ?_⟩
  · rw [hmk1]
    simp only [Except.map]
    rw [hs1]
  · rw [hmk2]
    simp only [Except.map]
    rw [hs2]
  · rw [hmk3]
    simp only [Except.map]
    rw [hs3]

/-- C8 counterexample: `Subtract` does **not** return
`1/(1/self - 1/other)` for every unequal pair — with `self = 100` and
`other` the 10 Ω resistor that quantity is `-100/9`, and the
`DecimalFloat` construction inside `__sub__` raises the logarithm domain
`ValueError` instead of returning a value. -/
theorem subtract_larger_self_raises :
    Resistor.subFloatSelf 100 (.res ⟨⟨1, 1⟩⟩) = .error .domainError ∧
      (100 : ℚ) ≠ (PyNum.res ⟨⟨1, 1⟩⟩).toRat := by
  constructor
  · rw [Resistor.subFloatSelf_of_ne]
    · rw [show (1 / (1/(100:ℚ) - 1/(PyNum.res ⟨⟨1, 1⟩⟩).toRat)) = -100/9 from by
          norm_num [PyNum.toRat, Resistor.toRat, DecimalFloat.toRat],
        DecimalFloat.make_nonpos _ (by norm_num)]
      rfl
    · norm_num [PyNum.toRat, Resistor.toRat, DecimalFloat.toRat]
  · norm_num [PyNum.toRat, Resistor.toRat, DecimalFloat.toRat]

/-- C8 (amended): for positive operands, `Subtract(self, other)` returns
the numeric sentinel `0` when the operands are equal, and when
`self < other` — the only unequal case arising in the engine, where `self`
is the target and `other` the running sum — it returns the `DecimalFloat`
`1/(1/self - 1/other)`.  (For `self > other` that quantity is negative and
construction raises a domain `ValueError` instead.) -/
theorem subFloatSelf_spec (s : ℚ) (p : PyNum) (hs : 0 < s)
    (hp : 0 < p.toRat) :
    (s = p.toRat → Resistor.subFloatSelf s p = .ok .int0) ∧
    (s < p.toRat → ∃ d : DecimalFloat,
      Resistor.subFloatSelf s p = .ok (.dec d) ∧
      d.toRat = 1 / (1 / s - 1 / p.toRat)) := by
  refine ⟨fun h => Resistor.subFloatSelf_of_eq s p h, fun hlt => ?_⟩
  have harg : 0 < 1 / (1 / s - 1 / p.toRat) := by
    have h1 : 1 / p.toRat < 1 / s := one_div_lt_one_div_of_lt hs hlt
    have h2 : 0 < 1 / s - 1 / p.toRat := by linarith
    positivity
  obtain ⟨d, hmk, hdr⟩ := DecimalFloat.make_ok_toRat _ harg
  refine ⟨d, ?_, hdr⟩
  rw [Resistor.subFloatSelf_of_ne s p (ne_of_lt hlt), hmk]
  rfl

theorem subFloatSelf_spec_witness :
    (0 : ℚ) < 1234 ∧ (0 : ℚ) < (PyNum.res ⟨⟨3/2, 3⟩⟩).toRat ∧
      (((1234 : ℚ) = (PyNum.res ⟨⟨3/2, 3⟩⟩).toRat →
        Resistor.subFloatSelf 1234 (.res ⟨⟨3/2, 3⟩⟩) = .ok .int0) ∧
      ((1234 : ℚ) < (PyNum.res ⟨⟨3/2, 3⟩⟩).toRat →
        ∃ d : DecimalFloat,
          Resistor.subFloatSelf 1234 (.res ⟨⟨3/2, 3⟩⟩) = .ok (.dec d) ∧
          d.toRat = 1 / (1 / 1234 - 1 / (PyNum.res ⟨⟨3/2, 3⟩⟩).toRat))) :=
  ⟨by norm_num, by norm_num [PyNum.toRat, Resistor.toRat, DecimalFloat.toRat],
    subFloatSelf_spec 1234 (.res ⟨⟨3/2, 3⟩⟩) (by norm_num)
      (by norm_num [PyNum.toRat, Resistor.toRat, DecimalFloat.toRat])⟩

/-- C9: the integer literal `0` is an identity for the resistor `Add`:
`r + 0` (`__add__`) and `0 + r` (`__radd__`) both return the resistor `r`
itself, unchanged; for any other (positive) operand, `Add` returns the
exact parallel combination `1/(1/self + 1/other)` as a `DecimalFloat` —
not re-snapped to a standard value. -/
theorem addPar_zero_identity (r : Resistor) (p : PyNum) :
    Resistor.addPar r .int0 = .ok (.res r) ∧
    Resistor.raddPar r .int0 = .ok (.res r) ∧
    (p ≠ .int0 → 0 < r.toRat → 0 < p.toRat →
      ∃ d : DecimalFloat, Resistor.addPar r p = .ok (.dec d) ∧
        d.toRat = 1 / (1 / r.toRat + 1 / p.toRat)) := by
  refine ⟨rfl, rfl, fun hp hr hpp => ?_⟩
  have harg : 0 < 1 / (1 / r.toRat + 1 / p.toRat) := by positivity
  obtain ⟨d, hmk, hdr⟩ := DecimalFloat.make_ok_toRat _ harg
  refine ⟨d, ?_, hdr⟩
  rw [Resistor.addPar_ne_int0 r p hp, hmk]
  rfl

theorem addPar_zero_identity_witness :
    (PyNum.res ⟨⟨1, 2⟩⟩ ≠ PyNum.int0) ∧
    (0 : ℚ) < Resistor.toRat ⟨⟨1, 1⟩⟩ ∧
    (0 : ℚ) < (PyNum.res ⟨⟨1, 2⟩⟩).toRat ∧
    (Resistor.addPar ⟨⟨1, 1⟩⟩ .int0 = .ok (.res ⟨⟨1, 1⟩⟩) ∧
     Resistor.raddPar ⟨⟨1, 1⟩⟩ .int0 = .ok (.res ⟨⟨1, 1⟩⟩) ∧
     (PyNum.res ⟨⟨1, 2⟩⟩ ≠ PyNum.int0 → 0 < Resistor.toRat ⟨⟨1, 1⟩⟩ →
       0 < (PyNum.res ⟨⟨1, 2⟩⟩).toRat →
       ∃ d : DecimalFloat,
         Resistor.addPar ⟨⟨1, 1⟩⟩ (.res ⟨⟨1, 2⟩⟩) = .ok (.dec d) ∧
         d.toRat = 1 / (1 / Resistor.toRat ⟨⟨1, 1⟩⟩ +
           1 / (PyNum.res ⟨⟨1, 2⟩⟩).toRat))) :=
  ⟨by simp, by norm_num [Resistor.toRat, DecimalFloat.toRat],
    by norm_num [PyNum.toRat, Resistor.toRat, DecimalFloat.toRat],
    addPar_zero_identity ⟨⟨1, 1⟩⟩ (.res ⟨⟨1, 2⟩⟩)⟩

/-- C10: when the fold's value exactly equals the target (so the
tolerance test can only fail for `tolerance ≤ 0`), `Subtract` produces the
integer sentinel `0`; feeding it to `Resistor(...)` hits the logarithm
domain failure — the same `ValueError` type as the range error — which the
loop's single handler catches, returning the sequence built so far: the
sentinel is never appended, folded or formatted. -/
theorem sentinel_zero_caught (fuel : ℕ) (v tol : ℚ) (output : List Resistor)
    (cv : PyNum) (hfold : foldCurrent output = .ok cv) (hveq : cv.toRat = v)
    (htol : ¬|cv.toRat - v| / v < tol) :
    tol ≤ 0 ∧
    Resistor.subFloatSelf v cv = .ok .int0 ∧
    Resistor.make (PyNum.toRat .int0) = .error .domainError ∧
    loop (fuel + 1) v tol output = some output := by
  have hsub : Resistor.subFloatSelf v cv = .ok .int0 :=
    Resistor.subFloatSelf_of_eq v cv hveq.symm
  have hmk0 : Resistor.make (PyNum.toRat .int0) = .error .domainError :=
    Resistor.make_zero
  refine ⟨?_, hsub, hmk0, ?_⟩
  · by_contra h
    push_neg at h
    apply htol
    rw [hveq, sub_self, abs_zero, zero_div]
    exact h
  · have hstep : loopStep v tol output = .inl output := by
      simp only [loopStep, hfold, if_neg htol, hsub, hmk0]
    rw [loop_done fuel _ _ _ _ hstep]

theorem sentinel_zero_caught_witness :
    foldCurrent [⟨⟨1, 1⟩⟩] = .ok (.res ⟨⟨1, 1⟩⟩) ∧
    (PyNum.res ⟨⟨1, 1⟩⟩).toRat = 10 ∧
    ¬|(PyNum.res ⟨⟨1, 1⟩⟩).toRat - 10| / 10 < (0 : ℚ) ∧
    ((0 : ℚ) ≤ 0 ∧
      Resistor.subFloatSelf 10 (.res ⟨⟨1, 1⟩⟩) = .ok .int0 ∧
      Resistor.make (PyNum.toRat .int0) = .error .domainError ∧
      loop (0 + 1) 10 0 [⟨⟨1, 1⟩⟩] = some [⟨⟨1, 1⟩⟩]) :=
  ⟨rfl, by norm_num [PyNum.toRat, Resistor.toRat, DecimalFloat.toRat],
    by norm_num [PyNum.toRat, Resistor.toRat, DecimalFloat.toRat],
    sentinel_zero_caught 0 10 0 [⟨⟨1, 1⟩⟩] (.res ⟨⟨1, 1⟩⟩) rfl
      (by norm_num [PyNum.toRat, Resistor.toRat, DecimalFloat.toRat])
      (by norm_num [PyNum.toRat, Resistor.toRat, DecimalFloat.toRat])⟩
